import Mathlib

/-!
Verification development for the perma-capture core: the capture-job queue
and scheduler, the capture orchestrator (`run_next_capture`), the stale-job
reaper (`clean_up_failed_captures`), and the webhook dispatcher
(`dispatch_webhook`), shallowly embedded from `src/web/main/tasks.py` and
its tests. Components whose bodies live in modules not present in the
source tree (`CaptureJob.get_next_job`, `CaptureJob.queue_position`,
`validate_and_clean_url`, `sign_data`, `is_valid_signature`, the
`mark_invalid` / `mark_completed` / `mark_failed` status setters) are
modelled from the specification, as noted on each definition.
-/

/-- Job status values, from the `CaptureJob.Status` enumeration used
throughout `tasks.py` and `test_queue.py`. -/
inductive CStatus where
  | pending
  | in_progress
  | completed
  | failed
  | invalid
deriving DecidableEq, Repr

/-! ## Stale-job reaping (`clean_up_failed_captures`, tasks.py lines 123-132) -/

/-- The fields of a `CaptureJob` row that the reaper reads and writes. -/
structure RJob where
  status : CStatus
  capture_start_time : Nat
  message : Option String
  capture_end_time : Option Nat
deriving DecidableEq, Repr

/-- Modelled from the spec: `CaptureJob.mark_failed` (defined in the models
module, absent from the source tree) records a terminal failure: status
becomes Failed, the structured message is set, and `capture_end_time` is
set on the terminal transition. -/
def rjMarkFailed (msg : String) (now : Nat) (j : RJob) : RJob :=
  { j with status := .failed, message := some msg, capture_end_time := some now }

/-- One job's treatment by `clean_up_failed_captures`: an InProgress job
whose `capture_start_time` is older than `now - limit` (the SQL where
clause `capture_start_time < now() - make_interval(secs => limit)`,
i.e. `capture_start_time + limit < now`) is marked Failed with message
"Timed out."; every other job is left alone. -/
def reapOne (now limit : Nat) (j : RJob) : RJob :=
  if j.status = .in_progress ∧ j.capture_start_time + limit < now
  then rjMarkFailed "Timed out." now j
  else j

/-- `clean_up_failed_captures` from tasks.py: scan all jobs and reap the
timed-out InProgress ones. -/
def clean_up_failed_captures (now limit : Nat) (jobs : List RJob) : List RJob :=
  jobs.map (reapOne now limit)

/-! ## Webhook dispatch (`dispatch_webhook`, tasks.py lines 356-441) -/

/-- Outcome of the outbound POST: an HTTP status code, or a
transport-level failure (`requests.RequestException`). -/
inductive HttpOutcome where
  | status (code : Nat)
  | transportFailure
deriving DecidableEq, Repr

/-- What one invocation of the dispatcher did. -/
inductive DispatchAction where
  | disabled
  | delivered
  | retryScheduled (countdown : Nat)
  | escalationEmailSent
deriving DecidableEq, Repr

/-- Observable effects of one invocation of `dispatch_webhook`. -/
structure DispatchResult where
  action : DispatchAction
  httpAttempted : Bool
  emails : List Nat
  logs : List String
deriving DecidableEq, Repr

/-- Whether the POST outcome falls outside the accepted set: the code
asserts `response.status_code in [200, 204]` and treats any other status,
or any `requests.RequestException`, as retryable. -/
def retryableOutcome (o : HttpOutcome) : Bool :=
  match o with
  | .status c => !(c == 200 || c == 204)
  | .transportFailure => true

/-- `dispatch_webhook` from tasks.py. If `settings.DISPATCH_WEBHOOKS` is
false it logs and returns without a network call. Otherwise it POSTs and
accepts status 200 or 204; on any other status or a transport failure it
calls `self.retry(countdown=2**self.request.retries)`, which schedules a
retry while `retries < maxRetries` and raises `MaxRetriesExceededError`
once the bound is exhausted, in which case exactly one escalation email
naming the capture job is sent to the subscription owner and the task
returns normally. -/
def dispatch_webhook (dispatchEnabled : Bool) (maxRetries retries : Nat)
    (outcome : HttpOutcome) (_subscriptionId captureJobId : Nat) : DispatchResult :=
  match dispatchEnabled with
  | false =>
    { action := .disabled, httpAttempted := false, emails := [],
      logs := ["Webhooks notifications are disabled: not sending POST."] }
  | true =>
    if retryableOutcome outcome then
      if retries < maxRetries then
        { action := .retryScheduled (2 ^ retries), httpAttempted := true, emails := [],
          logs := ["Delivery of webhook notification failed."] }
      else
        { action := .escalationEmailSent, httpAttempted := true, emails := [captureJobId],
          logs := ["Delivery of webhook notification failed.",
                   "Delivery of webhook notification permanently failed."] }
    else
      { action := .delivered, httpAttempted := true, emails := [],
        logs := ["Webhook notification delivered."] }

/-- The full delivery lifecycle of one notification: the task substrate
re-invokes `dispatch_webhook` with `retries` incremented after each
scheduled retry, stopping on delivery or escalation. `outcomes k` is the
POST outcome observed on the attempt with retry counter `k`; `fuel`
bounds the recursion. -/
def dispatchRun (maxRetries : Nat) (outcomes : Nat → HttpOutcome)
    (subscriptionId captureJobId : Nat) : Nat → Nat → List DispatchAction
  | 0, _ => []
  | fuel + 1, retries =>
    let r := dispatch_webhook true maxRetries retries (outcomes retries) subscriptionId captureJobId
    match r.action with
    | .retryScheduled c =>
        .retryScheduled c :: dispatchRun maxRetries outcomes subscriptionId captureJobId fuel (retries + 1)
    | a => [a]

/-! ## Webhook signatures (Signer/Validator) -/

/-- One mixing step of a rolling digest over characters. -/
def mixChar (h : Nat) (c : Char) : Nat := (h * 131 + c.toNat + 7) % 1000000007

/-- A keyed rolling digest over a character sequence, seeded per algorithm. -/
def simpleDigest (seed : Nat) (data : List Char) : Nat := data.foldl mixChar seed

/-- Modelled from the spec: `sign_data` (defined in the utils module,
absent from the source tree) is a pure function computing a keyed digest
of the serialized payload under the subscription's signing key and
algorithm tag, placed in the `x-hook-signature` header. Rendered here as
an HMAC-style two-pass keyed digest. -/
def sign_data (payload key : List Char) (alg : Nat) : Nat :=
  let inner := simpleDigest (alg + 1) (key ++ payload)
  simpleDigest (inner + alg + 2) key

/-- Modelled from the spec: `is_valid_signature` (defined in the utils
module, absent from the source tree) verifies a signature by recomputing
the digest over the payload with the same key and algorithm and comparing
it with the presented signature. -/
def is_valid_signature (sig : Nat) (payload key : List Char) (alg : Nat) : Bool :=
  sig == sign_data payload key alg

/-! ## URL validation (Validate step of the orchestrator) -/

/-- A control character: C0 controls and DEL. -/
def isCtrlChar (c : Char) : Bool := c.toNat < 32 || c.toNat == 127

/-- Strip surrounding whitespace from a character sequence. -/
def trimChars (cs : List Char) : List Char :=
  ((cs.dropWhile Char.isWhitespace).reverse.dropWhile Char.isWhitespace).reverse

/-- Split a character sequence at the first occurrence of the scheme
separator "://", returning the scheme part and the remainder. -/
def schemeSplitAux : List Char → List Char → Option (List Char × List Char)
  | acc, ':' :: '/' :: '/' :: rest => some (acc.reverse, rest)
  | acc, c :: rest => schemeSplitAux (c :: acc) rest
  | _, [] => none

def httpChars : List Char := ['h', 't', 't', 'p']

def httpsChars : List Char := ['h', 't', 't', 'p', 's']

def schemeSepChars : List Char := [':', '/', '/']

/-- Modelled from the spec: `validate_and_clean_url` (defined in the utils
module, absent from the source tree) normalizes the requested URL — trim
surrounding whitespace, default to the explicit scheme `http://` when the
scheme is omitted — and rejects empty URLs, URLs containing control
characters, URLs with a scheme other than http or https, and malformed
URLs (a host with no dot, as in the test's `examplecom`). -/
def validate_and_clean_url (cs : List Char) : Except String (List Char) :=
  let s := trimChars cs
  if s = [] then .error "URL cannot be empty."
  else if s.any isCtrlChar then .error "URL contains invalid characters."
  else
    let full := match schemeSplitAux [] s with
      | some _ => s
      | none => httpChars ++ schemeSepChars ++ s
    match schemeSplitAux [] full with
    | some sr =>
      if sr.1 ≠ httpChars ∧ sr.1 ≠ httpsChars then .error "URL scheme must be http or https."
      else if (sr.2.takeWhile (fun c => c ≠ '/')).contains '.' then .ok full
      else .error "Invalid URL."
    | none => .error "Invalid URL."

/-! ## Capture orchestrator (`run_next_capture`, tasks.py lines 148-353) -/

/-- The fields of a `CaptureJob` row that the orchestrator reads and writes. -/
structure CJob where
  requested_url : List Char
  validated_url : Option (List Char)
  status : CStatus
  step_count : Nat
  step_description : String
  message : Option String
  capture_start_time : Option Nat
  capture_end_time : Option Nat
deriving DecidableEq, Repr

/-- The fields of an `Archive` row created at finalize. -/
structure ArchiveRec where
  hash : String
  hash_algorithm : String
  warc_size : Nat
  download_url : String
  download_expiration_timestamp : Nat
deriving DecidableEq, Repr

/-- The orchestrator's environment: everything the surrounding world
decides during one `run_next_capture` invocation. `failOnIncCall = some k`
injects an exception raised in place of the k-th `inc_progress` call
(mirroring the test harness `raise_on_call`; `HaltCaptureException`, soft
timeout and unclassified exceptions are all caught by the same handlers).
`finalizeOk = false` injects an exception in the finalize block before any
archive work (caught by the inner handler at tasks.py line 348). -/
structure CaptureEnv where
  failOnIncCall : Option Nat
  exitCode : Nat
  artifactFileExists : Bool
  stdoutLines : List String
  finalizeOk : Bool
  hashValue : String
  hashAlgValue : String
  warcSizeValue : Nat
  downloadUrlValue : String
  expirationValue : Nat
  now : Nat
deriving DecidableEq, Repr

/-- Whether the environment injects an exception at the c-th
`inc_progress` call. -/
def failsAt (env : CaptureEnv) (c : Nat) : Bool := env.failOnIncCall == some c

/-- `inc_progress` from tasks.py line 118: advance the progress cursor. -/
def inc_progress (inc : Nat) (d : String) (j : CJob) : CJob :=
  { j with step_count := j.step_count + inc, step_description := d }

/-- Modelled from the spec: `CaptureJob.mark_invalid` (models module,
absent from the source tree) makes the job terminal Invalid with the
structured validation message and sets `capture_end_time`. -/
def mark_invalid (msg : String) (now : Nat) (j : CJob) : CJob :=
  { j with status := .invalid, message := some msg, capture_end_time := some now }

/-- Modelled from the spec: `CaptureJob.mark_completed` (models module,
absent from the source tree) makes the job terminal Completed and sets
`capture_end_time`. -/
def mark_completed (now : Nat) (j : CJob) : CJob :=
  { j with status := .completed, capture_end_time := some now }

/-- Modelled from the spec: `CaptureJob.mark_failed` (models module,
absent from the source tree) makes the job terminal Failed with the given
message and sets `capture_end_time`. -/
def mark_failed (msg : String) (now : Nat) (j : CJob) : CJob :=
  { j with status := .failed, message := some msg, capture_end_time := some now }

/-- The stdout streaming loop (tasks.py lines 290-300): one progress step
per observed line. Returns the job, the next call index, and whether the
loop finished without an injected exception. -/
def streamLines (env : CaptureEnv) : List String → Nat → CJob → CJob × Nat × Bool
  | [], c, j => (j, c, true)
  | msg :: rest, c, j =>
    if failsAt env c then (j, c, false)
    else streamLines env rest (c + 1) (inc_progress 1 ("Browsertrix: " ++ msg ++ ".") j)

/-- The main `try:` block of `run_next_capture` (tasks.py lines 255-313):
validate (call 1), connect to Docker (call 2), create the container
(call 3), start it (call 4), stream stdout (calls 5...), then join the
lifecycle watcher and evaluate the exit code, salvaging a partial capture
when the container exited nonzero but the output artifact exists. Returns
the job, the `have_archive` flag, whether a container was created, and
the next `inc_progress` call index; every abnormal exit (validation
failure, injected exception) leaves early with those flags as set. -/
def capturePhase (env : CaptureEnv) (j0 : CJob) : CJob × Bool × Bool × Nat :=
  if failsAt env 1 then (j0, false, false, 2)
  else
    let j1 := inc_progress 0 "Validating." j0
    match validate_and_clean_url j0.requested_url with
    | .error m => (mark_invalid m env.now j1, false, false, 2)
    | .ok u =>
      let j2 := { j1 with validated_url := some u }
      if failsAt env 2 then (j2, false, false, 3)
      else
        let j3 := inc_progress 1 "Connecting to Docker." j2
        if failsAt env 3 then (j3, false, false, 4)
        else
          let j4 := inc_progress 1 "Creating browsertrix container." j3
          if failsAt env 4 then (j4, false, true, 5)
          else
            let j5 := inc_progress 1 "Starting browsertrix." j4
            let sres := streamLines env env.stdoutLines 5 j5
            let haveArch :=
              if sres.2.2 = false then false
              else if env.exitCode ≠ 0 then env.artifactFileExists
              else true
            (sres.1, haveArch, true, sres.2.1)

/-- The guaranteed-cleanup block (tasks.py lines 322-349): remove the
container, and if an artifact was produced, hash it, record its size,
upload it, build the Archive row and mark the job Completed; exceptions
here are caught by the inner handler and leave the job as it was. -/
def finalizePhase (env : CaptureEnv) (j : CJob) (haveArchive : Bool) (c : Nat) :
    CJob × Option ArchiveRec :=
  if haveArchive then
    if env.finalizeOk = false then (j, none)
    else if failsAt env c then (j, none)
    else
      let j1 := inc_progress 1 "Processing archive." j
      if failsAt env (c + 1) then (j1, none)
      else
        let j2 := inc_progress 1 "Saving archive." j1
        (mark_completed env.now j2,
         some { hash := env.hashValue, hash_algorithm := env.hashAlgValue,
                warc_size := env.warcSizeValue, download_url := env.downloadUrlValue,
                download_expiration_timestamp := env.expirationValue })
  else (j, none)

/-- The safety net (tasks.py lines 350-352): if the job is somehow still
InProgress after capture and finalize, force it to Failed. -/
def safetyNet (now : Nat) (j : CJob) : CJob :=
  if j.status = .in_progress then mark_failed "Failed during capture." now j else j

/-- Observable outcome of one `run_next_capture` invocation. -/
structure CaptureOutcome where
  job : Option CJob
  archive : Option ArchiveRec
  containerCreated : Bool
  reenqueued : Bool
deriving DecidableEq, Repr

/-- `run_next_capture` from tasks.py: after reaping and reserving
(`queued` is the job `CaptureJob.get_next_job(reserve=True)` returned,
already InProgress), run the capture phase, the finalize phase and the
safety net; with no pending job it logs "No jobs waiting!" and returns at
line 245 — only after a reserved capture does line 353 re-enqueue another
`run_next_capture` unit of work. -/
def run_next_capture (env : CaptureEnv) (queued : Option CJob) : CaptureOutcome :=
  match queued with
  | none => { job := none, archive := none, containerCreated := false, reenqueued := false }
  | some j0 =>
    let cp := capturePhase env j0
    let fr := finalizePhase env cp.1 cp.2.1 cp.2.2.2
    { job := some (safetyNet env.now fr.1), archive := fr.2,
      containerCreated := cp.2.2.1, reenqueued := true }

/-- A run-of-the-mill environment: no injected exceptions, clean exit,
artifact present. -/
def sampleEnv : CaptureEnv :=
  { failOnIncCall := none, exitCode := 0, artifactFileExists := true, stdoutLines := [],
    finalizeOk := true, hashValue := "abc123", hashAlgValue := "sha256", warcSizeValue := 1024,
    downloadUrlValue := "https://storage.example/x.wacz", expirationValue := 99, now := 5 }

/-! ## Theorems: orchestrator (C8, C3, C4, C6) -/

/-- A pending-then-reserved job for concrete evaluation. -/
def sampleJob : CJob :=
  { requested_url := "example.com".toList, validated_url := none,
    status := CStatus.in_progress, step_count := 0, step_description := "",
    message := none, capture_start_time := some 3, capture_end_time := none }

/-- The run-of-the-mill environment with the container exiting nonzero
(137, the SIGKILL case from the doctest). -/
def sampleEnv137 : CaptureEnv := { sampleEnv with exitCode := 137 }

/-- The same environment with no artifact left on disk. -/
def sampleEnv137NoArtifact : CaptureEnv := { sampleEnv137 with artifactFileExists := false }

/-- A reserved job whose requested URL has a disallowed scheme. -/
def sampleInvalidJob : CJob :=
  { requested_url := "file:///etc/passwd".toList, validated_url := none,
    status := CStatus.in_progress, step_count := 0, step_description := "",
    message := none, capture_start_time := some 3, capture_end_time := none }

/-! ## Job queue and fairness scheduler (C1) -/

/-- A pending capture job as the scheduler sees it: owning user, submission
order (the submission timestamp that defines FIFO order), and the
human/robot priority class. -/
structure QJob where
  user : Nat
  order : Nat
  human : Bool
deriving DecidableEq, Repr

/-- Scheduler state: the Pending set, the per-user time of last service,
and the current (logical) time. -/
structure QState where
  pending : List QJob
  lastServed : List (Nat × Nat)
  now : Nat
deriving DecidableEq, Repr

/-- Lexicographic comparison of two sort keys. -/
def lexLe (a b : Nat × Nat) : Bool := a.1 < b.1 || (a.1 == b.1 && a.2 ≤ b.2)

/-- The element of a list minimizing a lexicographic key, first among ties. -/
def argminLex {α : Type} (f : α → Nat × Nat) : List α → Option α
  | [] => none
  | x :: xs =>
    match argminLex f xs with
    | none => some x
    | some y => if lexLe (f x) (f y) then some x else some y

/-- Pending jobs in the human priority class. -/
def humanPending (s : QState) : List QJob := s.pending.filter (fun j => j.human)

/-- Pending jobs in the robot priority class. -/
def robotPending (s : QState) : List QJob := s.pending.filter (fun j => !j.human)

/-- A user's pending human jobs. -/
def userJobs (s : QState) (u : Nat) : List QJob :=
  (humanPending s).filter (fun j => j.user == u)

/-- Modelled from the spec: the rotation key of a user — "longest since
last served" — is the time the user was last served, and a user newly
entering the pending set is scheduled relative to the arrival time of
their oldest pending job. -/
def userKey (s : QState) (u : Nat) : Nat :=
  match s.lastServed.lookup u with
  | some t => t
  | none =>
    match argminLex (fun j => (j.order, 0)) (userJobs s u) with
    | some j => j.order
    | none => 0

/-- Modelled from the spec: the next job the scheduler would serve — the
next user in rotation (minimal rotation key) contributes their oldest
pending human job; robot jobs form one global FIFO queue serviced only
when the human rotation is entirely empty. -/
def nextJob (s : QState) : Option QJob :=
  match argminLex (fun j => (userKey s j.user, j.order)) (humanPending s) with
  | some j => some j
  | none => argminLex (fun j => (j.order, 0)) (robotPending s)

/-- Serving a job removes it from the Pending set, records its user as
just served, and advances time. -/
def serve (s : QState) (j : QJob) : QState :=
  { pending := s.pending.erase j,
    lastServed := (j.user, s.now) :: s.lastServed,
    now := s.now + 1 }

/-- Modelled from the spec: `CaptureJob.get_next_job(reserve=True)`
(models module, absent from the source tree) — select the next eligible
job under the fairness ordering and atomically claim it. -/
def get_next_job (s : QState) : Option QJob × QState :=
  match nextJob s with
  | none => (none, s)
  | some j => (some j, serve s j)

/-- The jobs returned by `n` successive reserving `get_next_job` calls. -/
def callResults : Nat → QState → List QJob
  | 0, _ => []
  | n + 1, s =>
    match get_next_job s with
    | (none, _) => []
    | (some j, s2) => j :: callResults n s2

/-- The order in which the scheduling algorithm, run to completion from
the current state, would retrieve the pending jobs. -/
def retrievalOrder (s : QState) : List QJob := callResults s.pending.length s

/-- Index of the first occurrence of a job in a list. -/
def posIn (j : QJob) : List QJob → Option Nat
  | [] => none
  | x :: xs => if x = j then some 0 else (posIn j xs).map (· + 1)

/-- Modelled from the spec: `CaptureJob.queue_position` (models module,
absent from the source tree) answers, without mutating anything, what
position a pending job would occupy if the scheduling algorithm ran to
completion from the current queue state (1-based). -/
def queue_position (j : QJob) (s : QState) : Option Nat :=
  (posIn j (retrievalOrder s)).map (· + 1)

/-- Well-formed queue states: submission timestamps are distinct. -/
def distinctOrders (l : List QJob) : Prop :=
  l.Pairwise (fun a b => a.order ≠ b.order)

instance (l : List QJob) : Decidable (distinctOrders l) := by
  unfold distinctOrders
  infer_instance

/-- The nine jobs of the fairness example: submissions in order
[u1, u1, u1, u2, u2(robot), u1, u1, u1, u2]. -/
def exampleJobs : List QJob :=
  [⟨1, 0, true⟩, ⟨1, 1, true⟩, ⟨1, 2, true⟩, ⟨2, 3, true⟩,
   ⟨2, 4, false⟩,
   ⟨1, 5, true⟩, ⟨1, 6, true⟩, ⟨1, 7, true⟩, ⟨2, 8, true⟩]

/-- The example's initial queue state: all nine jobs pending, nobody
served yet. -/
def exampleState : QState := { pending := exampleJobs, lastServed := [], now := 9 }

/-- The retrieval order the spec requires for the example:
[u1#1, u2#1, u1#2, u2#2, u1#3, u1#4, u1#5, u1#6, robot]. -/
def expectedOrder : List QJob :=
  [⟨1, 0, true⟩, ⟨2, 3, true⟩, ⟨1, 1, true⟩, ⟨2, 8, true⟩, ⟨1, 2, true⟩,
   ⟨1, 5, true⟩, ⟨1, 6, true⟩, ⟨1, 7, true⟩, ⟨2, 4, false⟩]

/-! ## Race-free reservation (C2) -/

inductive JStatus where
  | pending
  | inProgress (startTime : Nat)
deriving DecidableEq, Repr

inductive WState where
  | scanning (i : Nat)
  | claiming (i : Nat)
  | finished (res : Option Nat)
deriving DecidableEq, Repr

structure RaceConfig where
  status : Nat → JStatus
  worker : Nat → WState
  clock : Nat

def setWorker (c : RaceConfig) (w : Nat) (ws : WState) : RaceConfig :=
  { c with worker := fun v => if v = w then ws else c.worker v }

def claimJob (c : RaceConfig) (w i : Nat) : RaceConfig :=
  { status := fun jdx => if jdx = i then .inProgress c.clock else c.status jdx,
    worker := fun v => if v = w then .finished (some i) else c.worker v,
    clock := c.clock + 1 }

def raceStep (n W : Nat) (c : RaceConfig) (w : Nat) : RaceConfig :=
  if w < W then
    match c.worker w with
    | .finished _ => c
    | .scanning i =>
      if i < n then
        match c.status i with
        | .pending => setWorker c w (.claiming i)
        | .inProgress _ => setWorker c w (.scanning (i + 1))
      else setWorker c w (.finished none)
    | .claiming i =>
      if i < n then
        match c.status i with
        | .pending => claimJob c w i
        | .inProgress _ => setWorker c w (.scanning (i + 1))
      else setWorker c w (.finished none)
  else c

def raceRun (n W : Nat) (sched : List Nat) (c : RaceConfig) : RaceConfig :=
  sched.foldl (raceStep n W) c

def raceInit : RaceConfig :=
  { status := fun _ => .pending, worker := fun _ => .scanning 0, clock := 0 }

def resultOf (c : RaceConfig) (w : Nat) : Option Nat :=
  match c.worker w with
  | .finished (some j) => some j
  | _ => none

def raceResults (W : Nat) (c : RaceConfig) : List Nat :=
  (List.range W).filterMap (resultOf c)

def isFinished : WState → Bool
  | .finished _ => true
  | _ => false

structure RaceInv (n W : Nat) (c : RaceConfig) : Prop where
  scanBound : ∀ w, w < W → ∀ i, (c.worker w = .scanning i ∨ c.worker w = .claiming i) →
    ∀ j, j < i → c.status j ≠ .pending
  claimingBound : ∀ w, w < W → ∀ i, c.worker w = .claiming i → i < n
  noneDone : ∀ w, w < W → c.worker w = .finished none → ∀ j, j < n → c.status j ≠ .pending
  ownerOf : ∀ j t, c.status j = .inProgress t → ∃ w, w < W ∧ c.worker w = .finished (some j)
  claimedDone : ∀ w, w < W → ∀ j, c.worker w = .finished (some j) → j < n ∧ c.status j ≠ .pending
  ownerUnique : ∀ w1 w2 j, w1 < W → w2 < W → c.worker w1 = .finished (some j) →
    c.worker w2 = .finished (some j) → w1 = w2

/-! ## Theorems -/

/-! ## Theorems: reaper (C5) -/

/-- C5: `clean_up_failed_captures` is idempotent and exact. An InProgress
job whose `capture_start_time` is within the hard limit is untouched; one
beyond the limit is set to Failed with message "Timed out." (exactly
once: the marked job is no longer InProgress, so a second reap of the
resulting state changes nothing, i.e. reap ∘ reap = reap); jobs in any
status other than InProgress are never touched. -/
theorem C5_reap_idempotent_exact :
    (∀ now limit j, j.status = CStatus.in_progress → now ≤ j.capture_start_time + limit →
      reapOne now limit j = j)
    ∧ (∀ now limit j, j.status = CStatus.in_progress → j.capture_start_time + limit < now →
      reapOne now limit j = rjMarkFailed "Timed out." now j
        ∧ (reapOne now limit j).status = CStatus.failed
        ∧ (reapOne now limit j).message = some "Timed out.")
    ∧ (∀ now limit jobs,
      clean_up_failed_captures now limit (clean_up_failed_captures now limit jobs)
        = clean_up_failed_captures now limit jobs)
    ∧ (∀ now limit j, j.status ≠ CStatus.in_progress → reapOne now limit j = j) := by
  refine ⟨?_, ?_, ?_, ?_⟩
  · intro now limit j hs ht
    have h : ¬ (j.status = CStatus.in_progress ∧ j.capture_start_time + limit < now) := by
      rintro ⟨-, hlt⟩
      omega
    simp only [reapOne, if_neg h]
  · intro now limit j hs ht
    have : reapOne now limit j = rjMarkFailed "Timed out." now j := by
      simp only [reapOne, if_pos (And.intro hs ht)]
    exact ⟨this, by rw [this]; rfl, by rw [this]; rfl⟩
  · intro now limit jobs
    simp only [clean_up_failed_captures, List.map_map]
    apply List.map_congr_left
    intro j _
    show reapOne now limit (reapOne now limit j) = reapOne now limit j
    by_cases h : j.status = CStatus.in_progress ∧ j.capture_start_time + limit < now
    · simp only [reapOne, if_pos h]
      rw [if_neg]
      rintro ⟨habs, -⟩
      simp [rjMarkFailed] at habs
    · simp only [reapOne, if_neg h, if_neg h]
  · intro now limit j hs
    have h : ¬ (j.status = CStatus.in_progress ∧ j.capture_start_time + limit < now) := by
      rintro ⟨habs, -⟩
      exact hs habs
    simp only [reapOne, if_neg h]

/-- Witness for C5 at concrete inputs: a job started at time 0 with limit
420 is untouched at time 400 and reaped at time 500. -/
theorem C5_reap_idempotent_exact_witness :
    (RJob.mk CStatus.in_progress 0 none none).status = CStatus.in_progress
    ∧ (400 : Nat) ≤ 0 + 420
    ∧ reapOne 400 420 (RJob.mk CStatus.in_progress 0 none none)
        = RJob.mk CStatus.in_progress 0 none none
    ∧ (0 : Nat) + 420 < 500
    ∧ (reapOne 500 420 (RJob.mk CStatus.in_progress 0 none none)).status = CStatus.failed := by
  refine ⟨rfl, by omega, ?_, by omega, ?_⟩
  · exact C5_reap_idempotent_exact.1 400 420 (RJob.mk CStatus.in_progress 0 none none) rfl
      (by decide)
  · exact (C5_reap_idempotent_exact.2.1 500 420 (RJob.mk CStatus.in_progress 0 none none) rfl
      (by decide)).2.1

/-! ## Theorems: webhook dispatcher (C7, C9) and signatures (C10) -/

/-- On an all-failing outcome stream, the delivery lifecycle schedules one
retry per remaining attempt, with countdown `2 ^ retries`, and ends with a
single escalation email action. -/
theorem dispatchRun_allFail (m : Nat) (outcomes : Nat → HttpOutcome)
    (subId jobId : Nat) (hall : ∀ k, retryableOutcome (outcomes k) = true) :
    ∀ fuel retries, m - retries < fuel →
      dispatchRun m outcomes subId jobId fuel retries
        = ((List.range (m - retries)).map
            (fun i => DispatchAction.retryScheduled (2 ^ (retries + i))))
          ++ [DispatchAction.escalationEmailSent] := by
  intro fuel
  induction fuel with
  | zero => intro retries h; omega
  | succ f ih =>
    intro retries h
    by_cases hr : retries < m
    · have hm : m - retries = (m - (retries + 1)) + 1 := by omega
      have hrec := ih (retries + 1) (by omega)
      have hstep : dispatchRun m outcomes subId jobId (f + 1) retries
          = DispatchAction.retryScheduled (2 ^ retries)
            :: dispatchRun m outcomes subId jobId f (retries + 1) := by
        simp [dispatchRun, dispatch_webhook, hall retries, hr]
      rw [hstep, hrec, hm, List.range_succ_eq_map]
      simp only [List.map_cons, List.map_map, List.cons_append, Nat.add_zero]
      congr 1
      apply congrArg (fun l => l ++ [DispatchAction.escalationEmailSent])
      apply List.map_congr_left
      intro i _
      simp only [Function.comp_apply, Nat.succ_eq_add_one]
      have hexp : retries + (i + 1) = retries + 1 + i := by omega
      rw [hexp]
    · have hm : m - retries = 0 := by omega
      have hstep : dispatchRun m outcomes subId jobId (f + 1) retries
          = [DispatchAction.escalationEmailSent] := by
        simp [dispatchRun, dispatch_webhook, hall retries, hr]
      rw [hstep, hm]
      simp

/-- C7: with delivery enabled, a response status of 200 or 204 is success
and triggers no retry and no email; any other status (redirects included)
or a transport-level failure schedules a retry with countdown
`2 ^ (number of prior attempts)` while under the configured maximum retry
count; once the bound is exhausted, exactly one escalation email naming
the capture job is sent, the task returns without raising, and on an
all-failing outcome stream the full lifecycle is exactly the retries with
countdowns `2^0, ..., 2^(m-1)` followed by the single escalation, with
nothing after it. -/
theorem C7_webhook_retry_backoff_escalation :
    (∀ m r s j c, c = 200 ∨ c = 204 →
      (dispatch_webhook true m r (HttpOutcome.status c) s j).action = DispatchAction.delivered
      ∧ (dispatch_webhook true m r (HttpOutcome.status c) s j).emails = [])
    ∧ (∀ c, c ∈ [301, 302, 400, 401, 413, 500, 502] → retryableOutcome (HttpOutcome.status c) = true)
    ∧ retryableOutcome HttpOutcome.transportFailure = true
    ∧ (∀ m r s j o, retryableOutcome o = true → r < m →
      (dispatch_webhook true m r o s j).action = DispatchAction.retryScheduled (2 ^ r)
      ∧ (dispatch_webhook true m r o s j).emails = [])
    ∧ (∀ m r s j o, retryableOutcome o = true → m ≤ r →
      (dispatch_webhook true m r o s j).action = DispatchAction.escalationEmailSent
      ∧ (dispatch_webhook true m r o s j).emails = [j])
    ∧ (∀ m s j (outs : Nat → HttpOutcome), (∀ k, retryableOutcome (outs k) = true) →
      dispatchRun m outs s j (m + 1) 0
        = ((List.range m).map (fun i => DispatchAction.retryScheduled (2 ^ i)))
          ++ [DispatchAction.escalationEmailSent]) := by
  refine ⟨?_, by decide, rfl, ?_, ?_, ?_⟩
  · rintro m r s j c (rfl | rfl) <;> exact ⟨rfl, rfl⟩
  · intro m r s j o ho hr
    constructor <;> simp [dispatch_webhook, ho, hr]
  · intro m r s j o ho hr
    have hnl : ¬ r < m := by omega
    constructor <;> simp [dispatch_webhook, ho, hnl]
  · intro m s j outs hall
    have := dispatchRun_allFail m outs s j hall (m + 1) 0 (by omega)
    simpa using this

/-- Witness for C7 at concrete inputs: with a maximum of 3 retries, a 502
on the first attempt schedules a retry with countdown 1, and a 502 once
the bound is reached sends the single escalation email naming job 42. -/
theorem C7_webhook_retry_backoff_escalation_witness :
    ((200 : Nat) = 200 ∨ (200 : Nat) = 204)
    ∧ (dispatch_webhook true 3 0 (HttpOutcome.status 200) 7 42).action = DispatchAction.delivered
    ∧ retryableOutcome (HttpOutcome.status 502) = true ∧ (0 : Nat) < 3
    ∧ (dispatch_webhook true 3 0 (HttpOutcome.status 502) 7 42).action
        = DispatchAction.retryScheduled 1
    ∧ (3 : Nat) ≤ 3
    ∧ (dispatch_webhook true 3 3 (HttpOutcome.status 502) 7 42).emails = [42] := by
  refine ⟨Or.inl rfl, ?_, rfl, by omega, ?_, by omega, ?_⟩
  · exact (C7_webhook_retry_backoff_escalation.1 3 0 7 42 200 (Or.inl rfl)).1
  · exact (C7_webhook_retry_backoff_escalation.2.2.2.1 3 0 7 42 (HttpOutcome.status 502)
      rfl (by omega)).1
  · exact (C7_webhook_retry_backoff_escalation.2.2.2.2.1 3 3 7 42 (HttpOutcome.status 502)
      rfl (by omega)).2

/-- C9: with the webhook-dispatch configuration flag false, the dispatcher
performs no outbound HTTP request, schedules no retry, sends no email,
logs that notifications are disabled, and returns with no other effect. -/
theorem C9_webhook_disabled_noop :
    ∀ m r o s j, dispatch_webhook false m r o s j
      = { action := DispatchAction.disabled, httpAttempted := false, emails := [],
          logs := ["Webhooks notifications are disabled: not sending POST."] } := by
  intro m r o s j
  rfl

/-- C10: the signature placed in the `x-hook-signature` header verifies
against the same payload: for every payload, signing key and algorithm,
`is_valid_signature (sign_data p k a) p k a` holds. -/
theorem C10_signature_round_trip :
    ∀ (p k : List Char) (a : Nat), is_valid_signature (sign_data p k a) p k a = true := by
  intro p k a
  simp [is_valid_signature]

theorem failsAt_of_none (env : CaptureEnv) (h : env.failOnIncCall = none) (c : Nat) :
    failsAt env c = false := by
  simp [failsAt, h]

theorem streamLines_fst_status (env : CaptureEnv) :
    ∀ ls c j, ((streamLines env ls c j).1).status = j.status := by
  intro ls
  induction ls with
  | nil => intro c j; rfl
  | cons msg rest ih =>
    intro c j
    by_cases h : failsAt env c = true
    · simp [streamLines, h]
    · simp [streamLines, h, ih, inc_progress]

theorem streamLines_noFail (env : CaptureEnv) (h : env.failOnIncCall = none) :
    ∀ ls c j, ((streamLines env ls c j).2).2 = true := by
  intro ls
  induction ls with
  | nil => intro c j; rfl
  | cons msg rest ih =>
    intro c j
    simp [streamLines, failsAt_of_none env h, ih]

theorem capturePhase_status (env : CaptureEnv) (j0 : CJob) :
    ((capturePhase env j0).1).status = j0.status
    ∨ ((capturePhase env j0).1).status = CStatus.invalid := by
  unfold capturePhase
  repeat' split
  all_goals first
    | exact Or.inl rfl
    | (right; simp [mark_invalid]; done)
    | (left; simp [inc_progress, streamLines_fst_status]; done)

theorem finalizePhase_status (env : CaptureEnv) (j : CJob) (h : Bool) (c : Nat) :
    ((finalizePhase env j h c).1).status = j.status
    ∨ ((finalizePhase env j h c).1).status = CStatus.completed := by
  unfold finalizePhase
  repeat' split
  all_goals first
    | exact Or.inl rfl
    | (right; simp [mark_completed, inc_progress]; done)
    | (left; simp [inc_progress]; done)

theorem safetyNet_status (now : Nat) (j : CJob) :
    ((safetyNet now j).status = j.status ∧ j.status ≠ CStatus.in_progress)
    ∨ (safetyNet now j).status = CStatus.failed := by
  unfold safetyNet
  by_cases h : j.status = CStatus.in_progress
  · right
    simp [h, mark_failed]
  · left
    simp [h]

/-- C3: every invocation that reserved a job returns with that job in a
terminal state — Completed, Failed or Invalid, never InProgress: whatever
combination of validation outcome, injected exceptions, exit code and
finalize failures occurs, the safety net at tasks.py lines 350-352 forces
any job still InProgress to Failed before the routine returns. -/
theorem C3_terminal_status_on_return :
    ∀ env j0, j0.status = CStatus.in_progress →
      ∃ j, (run_next_capture env (some j0)).job = some j
        ∧ (j.status = CStatus.completed ∨ j.status = CStatus.failed
            ∨ j.status = CStatus.invalid) := by
  intro env j0 h0
  refine ⟨_, rfl, ?_⟩
  rcases safetyNet_status env.now
      (finalizePhase env (capturePhase env j0).1 (capturePhase env j0).2.1
        (capturePhase env j0).2.2.2).1 with ⟨hs, hne⟩ | hs
  · rcases finalizePhase_status env (capturePhase env j0).1 (capturePhase env j0).2.1
        (capturePhase env j0).2.2.2 with hf | hf
    · rcases capturePhase_status env j0 with hc | hc
      · exact absurd (hf.trans (hc.trans h0)) hne
      · exact Or.inr (Or.inr (hs.trans (hf.trans hc)))
    · exact Or.inl (hs.trans hf)
  · exact Or.inr (Or.inl hs)

/-- Witness for C3 at concrete inputs. -/
theorem C3_terminal_status_on_return_witness :
    sampleJob.status = CStatus.in_progress
    ∧ ∃ j, (run_next_capture sampleEnv (some sampleJob)).job = some j
        ∧ (j.status = CStatus.completed ∨ j.status = CStatus.failed
            ∨ j.status = CStatus.invalid) :=
  ⟨rfl, C3_terminal_status_on_return sampleEnv sampleJob rfl⟩

/-- C8 as stated fails on the code: with no pending job, `run_next_capture`
logs "No jobs waiting!" and returns at tasks.py line 245 without reaching
the `run_next_capture.apply_async()` call at line 353 — this invocation
does not enqueue another unit of work. -/
theorem C8_counterexample_idle_no_reenqueue :
    (run_next_capture sampleEnv none).reenqueued = false := rfl

/-- C8 amended: every invocation that reserves a job enqueues another
"run next capture" unit of work before returning, whatever happens during
capture and finalize; an invocation that finds no pending job returns
without re-enqueueing. -/
theorem C8_reenqueue_after_reserved_job :
    (∀ env j0, (run_next_capture env (some j0)).reenqueued = true)
    ∧ (∀ env, (run_next_capture env none).reenqueued = false) := by
  constructor
  · intro env j0
    rfl
  · intro env
    rfl

theorem capturePhase_nofail_nonzero (env : CaptureEnv) (j0 : CJob) (u : List Char)
    (hnone : env.failOnIncCall = none)
    (hv : validate_and_clean_url j0.requested_url = Except.ok u)
    (hexit : env.exitCode ≠ 0) :
    (capturePhase env j0).2.1 = env.artifactFileExists
    ∧ ((capturePhase env j0).1).status = j0.status := by
  have hfa := failsAt_of_none env hnone
  have hsl := streamLines_noFail env hnone
  constructor <;>
    simp [capturePhase, hfa, hv, hexit, hsl, streamLines_fst_status, inc_progress]

theorem finalizePhase_false (env : CaptureEnv) (j : CJob) (c : Nat) :
    finalizePhase env j false c = (j, none) := rfl

theorem finalizePhase_ok (env : CaptureEnv) (j : CJob) (c : Nat)
    (hfin : env.finalizeOk = true) (hnone : env.failOnIncCall = none) :
    finalizePhase env j true c
      = (mark_completed env.now
          (inc_progress 1 "Saving archive." (inc_progress 1 "Processing archive." j)),
         some { hash := env.hashValue, hash_algorithm := env.hashAlgValue,
                warc_size := env.warcSizeValue, download_url := env.downloadUrlValue,
                download_expiration_timestamp := env.expirationValue }) := by
  simp [finalizePhase, hfin, failsAt_of_none env hnone]

/-- C4: for a reserved job whose container exits with a nonzero exit code
(normal operation otherwise: no injected exceptions, validation passed):
if the expected output artifact file exists the job still ends Completed
and an Archive record carrying the hash, hash algorithm, size and
download URL is created; if the artifact file does not exist the job ends
Failed and no Archive record is created. -/
theorem C4_partial_capture_salvage :
    ∀ env j0 u, j0.status = CStatus.in_progress → env.failOnIncCall = none →
      validate_and_clean_url j0.requested_url = Except.ok u →
      env.exitCode ≠ 0 →
      ((env.artifactFileExists = true → env.finalizeOk = true →
        ∃ j, (run_next_capture env (some j0)).job = some j ∧ j.status = CStatus.completed
          ∧ (run_next_capture env (some j0)).archive
              = some { hash := env.hashValue, hash_algorithm := env.hashAlgValue,
                       warc_size := env.warcSizeValue, download_url := env.downloadUrlValue,
                       download_expiration_timestamp := env.expirationValue })
      ∧ (env.artifactFileExists = false →
        ∃ j, (run_next_capture env (some j0)).job = some j ∧ j.status = CStatus.failed
          ∧ (run_next_capture env (some j0)).archive = none)) := by
  intro env j0 u h0 hnone hv hexit
  obtain ⟨hha, hst⟩ := capturePhase_nofail_nonzero env j0 u hnone hv hexit
  constructor
  · intro hart hfin
    refine ⟨_, rfl, ?_, ?_⟩
    · show (safetyNet env.now (finalizePhase env (capturePhase env j0).1
          (capturePhase env j0).2.1 (capturePhase env j0).2.2.2).1).status = CStatus.completed
      rw [hha, hart, finalizePhase_ok env _ _ hfin hnone]
      simp [safetyNet, mark_completed, inc_progress]
    · show (finalizePhase env (capturePhase env j0).1 (capturePhase env j0).2.1
          (capturePhase env j0).2.2.2).2
        = some { hash := env.hashValue, hash_algorithm := env.hashAlgValue,
                 warc_size := env.warcSizeValue, download_url := env.downloadUrlValue,
                 download_expiration_timestamp := env.expirationValue }
      rw [hha, hart, finalizePhase_ok env _ _ hfin hnone]
  · intro hart
    refine ⟨_, rfl, ?_, ?_⟩
    · show (safetyNet env.now (finalizePhase env (capturePhase env j0).1
          (capturePhase env j0).2.1 (capturePhase env j0).2.2.2).1).status = CStatus.failed
      rw [hha, hart, finalizePhase_false]
      simp [safetyNet, hst, h0, mark_failed]
    · show (finalizePhase env (capturePhase env j0).1 (capturePhase env j0).2.1
          (capturePhase env j0).2.2.2).2 = none
      rw [hha, hart, finalizePhase_false]

/-- Witness for C4 at concrete inputs: exit code 137 with the artifact
present ends Completed with an Archive; without the artifact it ends
Failed with no Archive. -/
theorem C4_partial_capture_salvage_witness :
    sampleJob.status = CStatus.in_progress
    ∧ sampleEnv137.failOnIncCall = none
    ∧ validate_and_clean_url sampleJob.requested_url = Except.ok ("http://example.com".toList)
    ∧ sampleEnv137.exitCode ≠ 0
    ∧ (sampleEnv137.artifactFileExists = true → sampleEnv137.finalizeOk = true →
        ∃ j, (run_next_capture sampleEnv137 (some sampleJob)).job = some j
          ∧ j.status = CStatus.completed
          ∧ (run_next_capture sampleEnv137 (some sampleJob)).archive
              = some { hash := sampleEnv137.hashValue, hash_algorithm := sampleEnv137.hashAlgValue,
                       warc_size := sampleEnv137.warcSizeValue,
                       download_url := sampleEnv137.downloadUrlValue,
                       download_expiration_timestamp := sampleEnv137.expirationValue })
    ∧ (sampleEnv137NoArtifact.artifactFileExists = false →
        ∃ j, (run_next_capture sampleEnv137NoArtifact (some sampleJob)).job = some j
          ∧ j.status = CStatus.failed
          ∧ (run_next_capture sampleEnv137NoArtifact (some sampleJob)).archive = none) := by
  have hv : validate_and_clean_url sampleJob.requested_url
      = Except.ok ("http://example.com".toList) := by rfl
  refine ⟨rfl, rfl, hv, by decide, ?_, ?_⟩
  · exact (C4_partial_capture_salvage sampleEnv137 sampleJob _ rfl rfl hv (by decide)).1
  · exact (C4_partial_capture_salvage sampleEnv137NoArtifact sampleJob _ rfl rfl hv
      (by decide)).2

/-- C6: the validation step trims surrounding whitespace and defaults the
scheme to `http://` when omitted ("  example.com  " validates to
"http://example.com"); an empty URL, one whose trimmed form contains a
control character, one with an explicit non-http(s) scheme, and the
test's concrete malformed inputs all classify as validation errors; and
for every requested URL rejected by validation the reserved job ends
Invalid with the structured message populated, `step_count` still 0, and
no container is ever created for it. -/
theorem C6_validation_normalize_and_reject :
    validate_and_clean_url ("  example.com  ".toList) = Except.ok ("http://example.com".toList)
    ∧ (∀ cs, trimChars cs = [] → ∃ m, validate_and_clean_url cs = Except.error m)
    ∧ (∀ cs, (trimChars cs).any isCtrlChar = true →
        ∃ m, validate_and_clean_url cs = Except.error m)
    ∧ (∀ cs sr, schemeSplitAux [] (trimChars cs) = some sr →
        sr.1 ≠ httpChars → sr.1 ≠ httpsChars →
        ∃ m, validate_and_clean_url cs = Except.error m)
    ∧ (∃ m, validate_and_clean_url ("".toList) = Except.error m)
    ∧ (∃ m, validate_and_clean_url ("examplecom".toList) = Except.error m)
    ∧ (∃ m, validate_and_clean_url ("https://www.ntanet.org/some-article.pdf\x01".toList)
        = Except.error m)
    ∧ (∃ m, validate_and_clean_url ("file:///etc/passwd".toList) = Except.error m)
    ∧ (∀ env j0 m, j0.status = CStatus.in_progress → j0.step_count = 0 →
        env.failOnIncCall ≠ some 1 →
        validate_and_clean_url j0.requested_url = Except.error m →
        ∃ j, (run_next_capture env (some j0)).job = some j
          ∧ j.status = CStatus.invalid ∧ j.message = some m ∧ j.step_count = 0
          ∧ (run_next_capture env (some j0)).containerCreated = false) := by
  refine ⟨by rfl, ?_, ?_, ?_,
    ⟨"URL cannot be empty.", by rfl⟩,
    ⟨"Invalid URL.", by rfl⟩,
    ⟨"URL contains invalid characters.", by rfl⟩,
    ⟨"URL scheme must be http or https.", by rfl⟩, ?_⟩
  · intro cs h
    exact ⟨"URL cannot be empty.", by simp [validate_and_clean_url, h]⟩
  · intro cs h
    by_cases he : trimChars cs = []
    · exact ⟨"URL cannot be empty.", by simp [validate_and_clean_url, he]⟩
    · exact ⟨"URL contains invalid characters.", by simp [validate_and_clean_url, he, h]⟩
  · intro cs sr h hn1 hn2
    by_cases he : trimChars cs = []
    · exact ⟨"URL cannot be empty.", by simp [validate_and_clean_url, he]⟩
    · by_cases hc : (trimChars cs).any isCtrlChar = true
      · exact ⟨"URL contains invalid characters.", by simp [validate_and_clean_url, he, hc]⟩
      · exact ⟨"URL scheme must be http or https.",
          by simp [validate_and_clean_url, he, hc, h, hn1, hn2]⟩
  · intro env j0 m h0 hsteps hne hverr
    have h1 : failsAt env 1 = false := by
      simp only [failsAt, beq_eq_false_iff_ne, ne_eq]
      exact hne
    have hcp : capturePhase env j0
        = (mark_invalid m env.now (inc_progress 0 "Validating." j0), false, false, 2) := by
      simp [capturePhase, h1, hverr]
    refine ⟨_, rfl, ?_, ?_, ?_, ?_⟩
    · show (safetyNet env.now (finalizePhase env (capturePhase env j0).1
          (capturePhase env j0).2.1 (capturePhase env j0).2.2.2).1).status = CStatus.invalid
      rw [hcp]
      simp [finalizePhase, safetyNet, mark_invalid]
    · show (safetyNet env.now (finalizePhase env (capturePhase env j0).1
          (capturePhase env j0).2.1 (capturePhase env j0).2.2.2).1).message = some m
      rw [hcp]
      simp [finalizePhase, safetyNet, mark_invalid]
    · show (safetyNet env.now (finalizePhase env (capturePhase env j0).1
          (capturePhase env j0).2.1 (capturePhase env j0).2.2.2).1).step_count = 0
      rw [hcp]
      simp [finalizePhase, safetyNet, mark_invalid, inc_progress, hsteps]
    · show (capturePhase env j0).2.2.1 = false
      rw [hcp]

/-- Witness for C6 at concrete inputs: the `file://` URL is rejected and
the reserved job ends Invalid with no container created. -/
theorem C6_validation_normalize_and_reject_witness :
    sampleInvalidJob.status = CStatus.in_progress
    ∧ sampleInvalidJob.step_count = 0
    ∧ sampleEnv.failOnIncCall ≠ some 1
    ∧ validate_and_clean_url sampleInvalidJob.requested_url
        = Except.error "URL scheme must be http or https."
    ∧ (∃ j, (run_next_capture sampleEnv (some sampleInvalidJob)).job = some j
        ∧ j.status = CStatus.invalid
        ∧ j.message = some "URL scheme must be http or https."
        ∧ j.step_count = 0
        ∧ (run_next_capture sampleEnv (some sampleInvalidJob)).containerCreated = false) := by
  have hv : validate_and_clean_url sampleInvalidJob.requested_url
      = Except.error "URL scheme must be http or https." := by rfl
  exact ⟨rfl, rfl, by decide, hv,
    C6_validation_normalize_and_reject.2.2.2.2.2.2.2.2 sampleEnv sampleInvalidJob
      "URL scheme must be http or https." rfl rfl (by decide) hv⟩

theorem argminLex_mem {α : Type} (f : α → Nat × Nat) :
    ∀ (l : List α) (x : α), argminLex f l = some x → x ∈ l := by
  intro l
  induction l with
  | nil => intro x h; cases h
  | cons a as ih =>
    intro x h
    simp only [argminLex] at h
    cases hm : argminLex f as with
    | none =>
      simp only [hm] at h
      cases h
      exact List.mem_cons_self a as
    | some y =>
      simp only [hm] at h
      by_cases hle : lexLe (f a) (f y) = true
      · rw [if_pos hle] at h
        cases h
        exact List.mem_cons_self a as
      · rw [if_neg hle] at h
        cases h
        exact List.mem_cons_of_mem a (ih _ hm)

theorem argminLex_eq_none {α : Type} (f : α → Nat × Nat) :
    ∀ (l : List α), argminLex f l = none → l = [] := by
  intro l
  cases l with
  | nil => intro _; rfl
  | cons a as =>
    intro h
    simp only [argminLex] at h
    cases hm : argminLex f as with
    | none => simp only [hm] at h; cases h
    | some y =>
      simp only [hm] at h
      by_cases hle : lexLe (f a) (f y) = true
      · rw [if_pos hle] at h; cases h
      · rw [if_neg hle] at h; cases h

theorem nextJob_mem (s : QState) (j : QJob) (h : nextJob s = some j) : j ∈ s.pending := by
  unfold nextJob at h
  cases hm : argminLex (fun j => (userKey s j.user, j.order)) (humanPending s) with
  | some j2 =>
    rw [hm] at h
    cases h
    exact (List.mem_filter.mp (argminLex_mem _ _ _ hm)).1
  | none =>
    rw [hm] at h
    exact (List.mem_filter.mp (argminLex_mem _ _ _ h)).1

theorem callResults_nodup_sub :
    ∀ (n : Nat) (s : QState), distinctOrders s.pending →
      (callResults n s).Nodup ∧ ∀ j, j ∈ callResults n s → j ∈ s.pending := by
  intro n
  induction n with
  | zero =>
    intro s _
    exact ⟨List.nodup_nil, by intro j h; cases h⟩
  | succ n ih =>
    intro s hd
    cases hnj : nextJob s with
    | none =>
      constructor
      · simp [callResults, get_next_job, hnj]
      · intro j h
        simp [callResults, get_next_job, hnj] at h
    | some j =>
      have hmem := nextJob_mem s j hnj
      have hnodup : s.pending.Nodup := hd.imp (fun hne heq => hne (congrArg QJob.order heq))
      have hd2 : distinctOrders (serve s j).pending :=
        List.Pairwise.sublist (List.erase_sublist j s.pending) hd
      obtain ⟨ihn, ihs⟩ := ih (serve s j) hd2
      have hnoj : j ∉ (serve s j).pending := by
        show j ∉ s.pending.erase j
        intro habs
        exact ((List.Nodup.mem_erase_iff hnodup).mp habs).1 rfl
      constructor
      · simp only [callResults, get_next_job, hnj]
        exact List.nodup_cons.mpr ⟨fun habs => hnoj (ihs j habs), ihn⟩
      · intro x hx
        simp only [callResults, get_next_job, hnj, List.mem_cons] at hx
        rcases hx with rfl | hx
        · exact hmem
        · exact List.mem_of_mem_erase (ihs x hx)

theorem get?_posIn_iff :
    ∀ (l : List QJob), l.Nodup → ∀ j k, l.get? k = some j ↔ posIn j l = some k := by
  intro l
  induction l with
  | nil =>
    intro _ j k
    constructor
    · intro h; cases h
    · intro h; cases h
  | cons x xs ih =>
    intro hd j k
    have hx : x ∉ xs := (List.nodup_cons.mp hd).1
    have hxs : xs.Nodup := (List.nodup_cons.mp hd).2
    cases k with
    | zero =>
      constructor
      · intro h
        have : x = j := by
          simpa using h
        simp [posIn, this]
      · intro h
        by_cases hxj : x = j
        · simp [hxj]
        · simp only [posIn, if_neg hxj] at h
          cases hp : posIn j xs with
          | none => rw [hp] at h; cases h
          | some i => rw [hp] at h; simp at h
    | succ k =>
      constructor
      · intro h
        have h2 : xs.get? k = some j := by simpa using h
        by_cases hxj : x = j
        · exact absurd (hxj ▸ List.get?_mem h2) hx
        · simp only [posIn, if_neg hxj]
          rw [(ih hxs j k).mp h2]
          rfl
      · intro h
        by_cases hxj : x = j
        · simp only [posIn, if_pos hxj] at h
          cases h
        · simp only [posIn, if_neg hxj] at h
          cases hp : posIn j xs with
          | none => rw [hp] at h; cases h
          | some i =>
            rw [hp] at h
            have hik : i = k := by simpa using h
            subst hik
            simpa using (ih hxs j _).mpr hp

/-- C1: `queue_position` and repeated reserving `get_next_job` calls
agree — for any well-formed queue state, the job returned at rank k (the
k-th entry of `retrievalOrder`, the trace of successive `get_next_job`
calls) is exactly the job whose `queue_position` is k+1; robot jobs are
served only when the human rotation is entirely empty; and on the spec's
example (submissions [u1, u1, u1, u2, u2(robot), u1, u1, u1, u2]) the
retrieval order is [u1#1, u2#1, u1#2, u2#2, u1#3, u1#4, u1#5, u1#6,
robot], with the matching queue positions. -/
theorem C1_queue_position_get_next_job_agree :
    (∀ s j k, distinctOrders s.pending →
      ((retrievalOrder s).get? k = some j ↔ queue_position j s = some (k + 1)))
    ∧ (∀ s j, nextJob s = some j → j.human = false → humanPending s = [])
    ∧ retrievalOrder exampleState = expectedOrder
    ∧ exampleJobs.map (fun j => queue_position j exampleState)
        = [some 1, some 3, some 5, some 2, some 9, some 6, some 7, some 8, some 4] := by
  refine ⟨?_, ?_, by rfl, by rfl⟩
  · intro s j k hd
    have hnd : (retrievalOrder s).Nodup := (callResults_nodup_sub s.pending.length s hd).1
    unfold queue_position
    constructor
    · intro h
      rw [(get?_posIn_iff _ hnd j k).mp h]
      rfl
    · intro h
      cases hp : posIn j (retrievalOrder s) with
      | none => rw [hp] at h; cases h
      | some i =>
        rw [hp] at h
        have hik : i = k := by simpa using h
        subst hik
        exact (get?_posIn_iff _ hnd j _).mpr hp
  · intro s j h hrobot
    unfold nextJob at h
    cases hm : argminLex (fun j => (userKey s j.user, j.order)) (humanPending s) with
    | some j2 =>
      rw [hm] at h
      cases h
      have := (List.mem_filter.mp (argminLex_mem _ _ _ hm)).2
      rw [hrobot] at this
      cases this
    | none => exact List.eq_nil_of_length_eq_zero (by
        have := argminLex_eq_none _ _ hm
        simp [this])

/-- Witness for C1 at concrete inputs: in the example state, rank 1
(0-based) of the retrieval order is u2's first job, the job with
queue position 2. -/
theorem C1_queue_position_get_next_job_agree_witness :
    distinctOrders exampleState.pending
    ∧ ((retrievalOrder exampleState).get? 1 = some (QJob.mk 2 3 true)
        ↔ queue_position (QJob.mk 2 3 true) exampleState = some 2) :=
  ⟨by decide,
   C1_queue_position_get_next_job_agree.1 exampleState (QJob.mk 2 3 true) 1 (by decide)⟩

theorem setWorker_status (c : RaceConfig) (w : Nat) (ws : WState) :
    (setWorker c w ws).status = c.status := rfl

theorem setWorker_self (c : RaceConfig) (w : Nat) (ws : WState) :
    (setWorker c w ws).worker w = ws := by
  simp [setWorker]

theorem setWorker_ne (c : RaceConfig) (w v : Nat) (ws : WState) (h : v ≠ w) :
    (setWorker c w ws).worker v = c.worker v := by
  simp [setWorker, h]

theorem claimJob_status_self (c : RaceConfig) (w i : Nat) :
    (claimJob c w i).status i = JStatus.inProgress c.clock := by
  simp [claimJob]

theorem claimJob_status_ne (c : RaceConfig) (w i j : Nat) (h : j ≠ i) :
    (claimJob c w i).status j = c.status j := by
  simp [claimJob, h]

theorem claimJob_worker_self (c : RaceConfig) (w i : Nat) :
    (claimJob c w i).worker w = WState.finished (some i) := by
  simp [claimJob]

theorem claimJob_worker_ne (c : RaceConfig) (w i v : Nat) (h : v ≠ w) :
    (claimJob c w i).worker v = c.worker v := by
  simp [claimJob, h]

theorem raceInit_inv (n W : Nat) : RaceInv n W raceInit := by
  refine ⟨?_, ?_, ?_, ?_, ?_, ?_⟩
  · intro w hw i hws j hj
    rcases hws with h | h <;> simp [raceInit] at h
    omega
  · intro w hw i h
    simp [raceInit] at h
  · intro w hw h
    simp [raceInit] at h
  · intro j t h
    simp [raceInit] at h
  · intro w hw j h
    simp [raceInit] at h
  · intro w1 w2 j h1 h2 hw1 hw2
    simp [raceInit] at hw1

theorem raceStep_inv (n W : Nat) (c : RaceConfig) (w : Nat) (h : RaceInv n W c) :
    RaceInv n W (raceStep n W c w) := by
  unfold raceStep
  by_cases hw : w < W
  · simp only [if_pos hw]
    cases hws : c.worker w with
    | finished r => exact h
    | scanning i =>
      by_cases hin : i < n
      · simp only [if_pos hin]
        cases hst : c.status i with
        | pending =>
          -- the worker read a Pending candidate and moves to the claim point
          refine ⟨?_, ?_, ?_, ?_, ?_, ?_⟩
          · intro w' hw' i' hws' j hj
            rw [setWorker_status]
            by_cases hww : w' = w
            · subst hww
              rw [setWorker_self] at hws'
              have hii : i' = i := by
                rcases hws' with h' | h' <;> cases h' <;> rfl
              rw [hii] at hj
              exact h.scanBound w' hw' i (Or.inl hws) j hj
            · rw [setWorker_ne _ _ _ _ hww] at hws'
              exact h.scanBound w' hw' i' hws' j hj
          · intro w' hw' i' hws'
            by_cases hww : w' = w
            · subst hww
              rw [setWorker_self] at hws'
              cases hws'
              exact hin
            · rw [setWorker_ne _ _ _ _ hww] at hws'
              exact h.claimingBound w' hw' i' hws'
          · intro w' hw' hws' j hj
            by_cases hww : w' = w
            · subst hww
              rw [setWorker_self] at hws'
              cases hws'
            · rw [setWorker_ne _ _ _ _ hww] at hws'
              rw [setWorker_status]
              exact h.noneDone w' hw' hws' j hj
          · intro j t hj
            rw [setWorker_status] at hj
            obtain ⟨w', hw', hws'⟩ := h.ownerOf j t hj
            have hww : w' ≠ w := by
              intro habs
              subst habs
              rw [hws] at hws'
              cases hws'
            exact ⟨w', hw', by rw [setWorker_ne _ _ _ _ hww]; exact hws'⟩
          · intro w' hw' j hws'
            rw [setWorker_status]
            by_cases hww : w' = w
            · subst hww
              rw [setWorker_self] at hws'
              cases hws'
            · rw [setWorker_ne _ _ _ _ hww] at hws'
              exact h.claimedDone w' hw' j hws'
          · intro w1 w2 j hw1 hw2 h1 h2
            by_cases hw1w : w1 = w
            · subst hw1w
              rw [setWorker_self] at h1
              cases h1
            · by_cases hw2w : w2 = w
              · subst hw2w
                rw [setWorker_self] at h2
                cases h2
              · rw [setWorker_ne _ _ _ _ hw1w] at h1
                rw [setWorker_ne _ _ _ _ hw2w] at h2
                exact h.ownerUnique w1 w2 j hw1 hw2 h1 h2
        | inProgress t =>
          -- the candidate is already claimed: skip to the next one
          refine ⟨?_, ?_, ?_, ?_, ?_, ?_⟩
          · intro w' hw' i' hws' j hj
            rw [setWorker_status]
            by_cases hww : w' = w
            · subst hww
              rw [setWorker_self] at hws'
              have : i' = i + 1 := by
                rcases hws' with h' | h' <;> cases h' <;> rfl
              subst this
              by_cases hji : j < i
              · exact h.scanBound w' hw' i (Or.inl hws) j hji
              · have : j = i := by omega
                subst this
                rw [hst]
                intro habs
                cases habs
            · rw [setWorker_ne _ _ _ _ hww] at hws'
              exact h.scanBound w' hw' i' hws' j hj
          · intro w' hw' i' hws'
            by_cases hww : w' = w
            · subst hww
              rw [setWorker_self] at hws'
              cases hws'
            · rw [setWorker_ne _ _ _ _ hww] at hws'
              exact h.claimingBound w' hw' i' hws'
          · intro w' hw' hws' j hj
            by_cases hww : w' = w
            · subst hww
              rw [setWorker_self] at hws'
              cases hws'
            · rw [setWorker_ne _ _ _ _ hww] at hws'
              rw [setWorker_status]
              exact h.noneDone w' hw' hws' j hj
          · intro j t' hj
            rw [setWorker_status] at hj
            obtain ⟨w', hw', hws'⟩ := h.ownerOf j t' hj
            have hww : w' ≠ w := by
              intro habs
              subst habs
              rw [hws] at hws'
              cases hws'
            exact ⟨w', hw', by rw [setWorker_ne _ _ _ _ hww]; exact hws'⟩
          · intro w' hw' j hws'
            rw [setWorker_status]
            by_cases hww : w' = w
            · subst hww
              rw [setWorker_self] at hws'
              cases hws'
            · rw [setWorker_ne _ _ _ _ hww] at hws'
              exact h.claimedDone w' hw' j hws'
          · intro w1 w2 j hw1 hw2 h1 h2
            by_cases hw1w : w1 = w
            · subst hw1w
              rw [setWorker_self] at h1
              cases h1
            · by_cases hw2w : w2 = w
              · subst hw2w
                rw [setWorker_self] at h2
                cases h2
              · rw [setWorker_ne _ _ _ _ hw1w] at h1
                rw [setWorker_ne _ _ _ _ hw2w] at h2
                exact h.ownerUnique w1 w2 j hw1 hw2 h1 h2
      · -- scanned past the end of the candidate list: finish empty-handed
        simp only [if_neg hin]
        refine ⟨?_, ?_, ?_, ?_, ?_, ?_⟩
        · intro w' hw' i' hws' j hj
          rw [setWorker_status]
          by_cases hww : w' = w
          · subst hww
            rw [setWorker_self] at hws'
            rcases hws' with h' | h' <;> cases h'
          · rw [setWorker_ne _ _ _ _ hww] at hws'
            exact h.scanBound w' hw' i' hws' j hj
        · intro w' hw' i' hws'
          by_cases hww : w' = w
          · subst hww
            rw [setWorker_self] at hws'
            cases hws'
          · rw [setWorker_ne _ _ _ _ hww] at hws'
            exact h.claimingBound w' hw' i' hws'
        · intro w' hw' hws' j hj
          rw [setWorker_status]
          by_cases hww : w' = w
          · subst hww
            exact h.scanBound w' hw' i (Or.inl hws) j (by omega)
          · rw [setWorker_ne _ _ _ _ hww] at hws'
            exact h.noneDone w' hw' hws' j hj
        · intro j t hj
          rw [setWorker_status] at hj
          obtain ⟨w', hw', hws'⟩ := h.ownerOf j t hj
          have hww : w' ≠ w := by
            intro habs
            subst habs
            rw [hws] at hws'
            cases hws'
          exact ⟨w', hw', by rw [setWorker_ne _ _ _ _ hww]; exact hws'⟩
        · intro w' hw' j hws'
          rw [setWorker_status]
          by_cases hww : w' = w
          · subst hww
            rw [setWorker_self] at hws'
            cases hws'
          · rw [setWorker_ne _ _ _ _ hww] at hws'
            exact h.claimedDone w' hw' j hws'
        · intro w1 w2 j hw1 hw2 h1 h2
          by_cases hw1w : w1 = w
          · subst hw1w
            rw [setWorker_self] at h1
            cases h1
          · by_cases hw2w : w2 = w
            · subst hw2w
              rw [setWorker_self] at h2
              cases h2
            · rw [setWorker_ne _ _ _ _ hw1w] at h1
              rw [setWorker_ne _ _ _ _ hw2w] at h2
              exact h.ownerUnique w1 w2 j hw1 hw2 h1 h2
    | claiming i =>
      by_cases hin : i < n
      · simp only [if_pos hin]
        cases hst : c.status i with
        | pending =>
          -- atomic claim: re-check and flip Pending to InProgress, stamping
          -- capture_start_time, in the same indivisible step
          have hnp : ∀ j, c.status j ≠ JStatus.pending ∨ j = i →
              (claimJob c w i).status j ≠ JStatus.pending := by
            intro j hj
            by_cases hji : j = i
            · subst hji
              rw [claimJob_status_self]
              intro habs
              cases habs
            · rw [claimJob_status_ne _ _ _ _ hji]
              rcases hj with hj | hj
              · exact hj
              · exact absurd hj hji
          refine ⟨?_, ?_, ?_, ?_, ?_, ?_⟩
          · intro w' hw' i' hws' j hj
            by_cases hww : w' = w
            · subst hww
              rw [claimJob_worker_self] at hws'
              rcases hws' with h' | h' <;> cases h'
            · rw [claimJob_worker_ne _ _ _ _ hww] at hws'
              exact hnp j (Or.inl (h.scanBound w' hw' i' hws' j hj))
          · intro w' hw' i' hws'
            by_cases hww : w' = w
            · subst hww
              rw [claimJob_worker_self] at hws'
              cases hws'
            · rw [claimJob_worker_ne _ _ _ _ hww] at hws'
              exact h.claimingBound w' hw' i' hws'
          · intro w' hw' hws' j hj
            by_cases hww : w' = w
            · subst hww
              rw [claimJob_worker_self] at hws'
              cases hws'
            · rw [claimJob_worker_ne _ _ _ _ hww] at hws'
              exact hnp j (Or.inl (h.noneDone w' hw' hws' j hj))
          · intro j t hj
            by_cases hji : j = i
            · subst hji
              exact ⟨w, hw, claimJob_worker_self c w j⟩
            · rw [claimJob_status_ne _ _ _ _ hji] at hj
              obtain ⟨w', hw', hws'⟩ := h.ownerOf j t hj
              have hww : w' ≠ w := by
                intro habs
                subst habs
                rw [hws] at hws'
                cases hws'
              exact ⟨w', hw', by rw [claimJob_worker_ne _ _ _ _ hww]; exact hws'⟩
          · intro w' hw' j hws'
            by_cases hww : w' = w
            · subst hww
              rw [claimJob_worker_self] at hws'
              have hji : j = i := by cases hws'; rfl
              subst hji
              exact ⟨hin, hnp j (Or.inr rfl)⟩
            · rw [claimJob_worker_ne _ _ _ _ hww] at hws'
              obtain ⟨hjn, hjs⟩ := h.claimedDone w' hw' j hws'
              exact ⟨hjn, hnp j (Or.inl hjs)⟩
          · intro w1 w2 j hw1 hw2 h1 h2
            by_cases hw1w : w1 = w
            · by_cases hw2w : w2 = w
              · rw [hw1w, hw2w]
              · exfalso
                subst hw1w
                rw [claimJob_worker_self] at h1
                have hji : j = i := by cases h1; rfl
                subst hji
                rw [claimJob_worker_ne _ _ _ _ hw2w] at h2
                exact (h.claimedDone w2 hw2 j h2).2 hst
            · by_cases hw2w : w2 = w
              · exfalso
                subst hw2w
                rw [claimJob_worker_self] at h2
                have hji : j = i := by cases h2; rfl
                subst hji
                rw [claimJob_worker_ne _ _ _ _ hw1w] at h1
                exact (h.claimedDone w1 hw1 j h1).2 hst
              · rw [claimJob_worker_ne _ _ _ _ hw1w] at h1
                rw [claimJob_worker_ne _ _ _ _ hw2w] at h2
                exact h.ownerUnique w1 w2 j hw1 hw2 h1 h2
        | inProgress t =>
          -- contended: another worker claimed this candidate between the
          -- read and the claim; fall through to the next candidate
          refine ⟨?_, ?_, ?_, ?_, ?_, ?_⟩
          · intro w' hw' i' hws' j hj
            rw [setWorker_status]
            by_cases hww : w' = w
            · subst hww
              rw [setWorker_self] at hws'
              have hii : i' = i + 1 := by
                rcases hws' with h' | h' <;> cases h' <;> rfl
              rw [hii] at hj
              by_cases hji : j < i
              · exact h.scanBound w' hw' i (Or.inr hws) j hji
              · have : j = i := by omega
                subst this
                rw [hst]
                intro habs
                cases habs
            · rw [setWorker_ne _ _ _ _ hww] at hws'
              exact h.scanBound w' hw' i' hws' j hj
          · intro w' hw' i' hws'
            by_cases hww : w' = w
            · subst hww
              rw [setWorker_self] at hws'
              cases hws'
            · rw [setWorker_ne _ _ _ _ hww] at hws'
              exact h.claimingBound w' hw' i' hws'
          · intro w' hw' hws' j hj
            by_cases hww : w' = w
            · subst hww
              rw [setWorker_self] at hws'
              cases hws'
            · rw [setWorker_ne _ _ _ _ hww] at hws'
              rw [setWorker_status]
              exact h.noneDone w' hw' hws' j hj
          · intro j t' hj
            rw [setWorker_status] at hj
            obtain ⟨w', hw', hws'⟩ := h.ownerOf j t' hj
            have hww : w' ≠ w := by
              intro habs
              subst habs
              rw [hws] at hws'
              cases hws'
            exact ⟨w', hw', by rw [setWorker_ne _ _ _ _ hww]; exact hws'⟩
          · intro w' hw' j hws'
            rw [setWorker_status]
            by_cases hww : w' = w
            · subst hww
              rw [setWorker_self] at hws'
              cases hws'
            · rw [setWorker_ne _ _ _ _ hww] at hws'
              exact h.claimedDone w' hw' j hws'
          · intro w1 w2 j hw1 hw2 h1 h2
            by_cases hw1w : w1 = w
            · subst hw1w
              rw [setWorker_self] at h1
              cases h1
            · by_cases hw2w : w2 = w
              · subst hw2w
                rw [setWorker_self] at h2
                cases h2
              · rw [setWorker_ne _ _ _ _ hw1w] at h1
                rw [setWorker_ne _ _ _ _ hw2w] at h2
                exact h.ownerUnique w1 w2 j hw1 hw2 h1 h2
      · -- unreachable under the invariant: a worker only reaches the claim
        -- point on an in-range candidate
        simp only [if_neg hin]
        exact absurd (h.claimingBound w hw i hws) hin
  · simp only [if_neg hw]
    exact h

theorem raceRun_inv (n W : Nat) (sched : List Nat) (c : RaceConfig) (h : RaceInv n W c) :
    RaceInv n W (raceRun n W sched c) := by
  induction sched generalizing c with
  | nil => exact h
  | cons a as ih => exact ih _ (raceStep_inv n W c a h)

theorem filterMapRange_nodup (f : Nat → Option Nat) :
    ∀ W, (∀ w1 w2 j, w1 < W → w2 < W → f w1 = some j → f w2 = some j → w1 = w2) →
      ((List.range W).filterMap f).Nodup := by
  intro W
  induction W with
  | zero => intro _; simp
  | succ W ih =>
    intro hinj
    rw [List.range_succ, List.filterMap_append]
    refine List.Nodup.append (ih ?_) ?_ ?_
    · intro w1 w2 j h1 h2 hf1 hf2
      exact hinj w1 w2 j (by omega) (by omega) hf1 hf2
    · cases hfW : f W <;> simp [hfW]
    · intro j hj1 hj2
      obtain ⟨w1, hw1mem, hw1⟩ := List.mem_filterMap.mp hj1
      have hw1W : w1 < W := List.mem_range.mp hw1mem
      obtain ⟨w2, hw2mem, hw2⟩ := List.mem_filterMap.mp hj2
      have hw2W : w2 = W := by
        cases List.mem_singleton.mp hw2mem
        rfl
      subst hw2W
      have := hinj w1 w2 j (by omega) (by omega) hw1 hw2
      omega

theorem filterMapRange_length (f : Nat → Option Nat) :
    ∀ W, (∀ w, w < W → (f w).isSome = true) →
      ((List.range W).filterMap f).length = W := by
  intro W
  induction W with
  | zero => intro _; simp
  | succ W ih =>
    intro hall
    rw [List.range_succ, List.filterMap_append, List.length_append]
    have h1 : ((List.range W).filterMap f).length = W := ih (fun w hw => hall w (by omega))
    have h2 : (List.filterMap f [W]).length = 1 := by
      cases hfW : f W with
      | none =>
        have := hall W (by omega)
        rw [hfW] at this
        cases this
      | some j => simp [hfW]
    omega

theorem resultOf_eq_some (c : RaceConfig) (w j : Nat) :
    resultOf c w = some j ↔ c.worker w = WState.finished (some j) := by
  unfold resultOf
  cases hws : c.worker w with
  | finished r =>
    cases r with
    | some j2 => simp
    | none => simp
  | scanning i => simp
  | claiming i => simp

theorem mem_raceResults (W : Nat) (c : RaceConfig) (j : Nat) :
    j ∈ raceResults W c ↔ ∃ w, w < W ∧ c.worker w = WState.finished (some j) := by
  unfold raceResults
  rw [List.mem_filterMap]
  constructor
  · rintro ⟨w, hwmem, hw⟩
    exact ⟨w, List.mem_range.mp hwmem, (resultOf_eq_some c w j).mp hw⟩
  · rintro ⟨w, hwlt, hws⟩
    exact ⟨w, List.mem_range.mpr hwlt, (resultOf_eq_some c w j).mpr hws⟩

theorem C2_reservation_race_free :
    (∀ n W (sched : List Nat), n ≤ W →
      (∀ w, w < W → isFinished ((raceRun n W sched raceInit).worker w) = true) →
      (raceResults W (raceRun n W sched raceInit)).Nodup
      ∧ (∀ j, j ∈ raceResults W (raceRun n W sched raceInit) → j < n)
      ∧ (∀ j, j < n → j ∈ raceResults W (raceRun n W sched raceInit)))
    ∧ (∀ n W c w, (raceStep n W c w).status = c.status
        ∨ ∃ i, i < n ∧ c.status i = JStatus.pending
          ∧ (raceStep n W c w).status
              = (fun jdx => if jdx = i then JStatus.inProgress c.clock else c.status jdx)
          ∧ (raceStep n W c w).worker w = WState.finished (some i)) := by
  constructor
  · intro n W sched hnW hfin
    have hinv : RaceInv n W (raceRun n W sched raceInit) :=
      raceRun_inv n W sched raceInit (raceInit_inv n W)
    have hinjres : ∀ w1 w2 j, w1 < W → w2 < W →
        resultOf (raceRun n W sched raceInit) w1 = some j →
        resultOf (raceRun n W sched raceInit) w2 = some j → w1 = w2 := by
      intro w1 w2 j h1 h2 hf1 hf2
      exact hinv.ownerUnique w1 w2 j h1 h2
        ((resultOf_eq_some _ w1 j).mp hf1) ((resultOf_eq_some _ w2 j).mp hf2)
    refine ⟨filterMapRange_nodup _ W hinjres, ?_, ?_⟩
    · intro j hj
      obtain ⟨w, hwW, hws⟩ := (mem_raceResults W _ j).mp hj
      exact (hinv.claimedDone w hwW j hws).1
    · intro j hjn
      by_cases hnone : ∃ w0, w0 < W ∧ (raceRun n W sched raceInit).worker w0
          = WState.finished none
      · obtain ⟨w0, hw0, hws0⟩ := hnone
        have hnp := hinv.noneDone w0 hw0 hws0 j hjn
        cases hstj : (raceRun n W sched raceInit).status j with
        | pending => exact absurd hstj hnp
        | inProgress t =>
          obtain ⟨w, hwW, hws⟩ := hinv.ownerOf j t hstj
          exact (mem_raceResults W _ j).mpr ⟨w, hwW, hws⟩
      · push_neg at hnone
        have hsome : ∀ w, w < W → (resultOf (raceRun n W sched raceInit) w).isSome = true := by
          intro w hw
          have hf := hfin w hw
          cases hws : (raceRun n W sched raceInit).worker w with
          | finished r =>
            cases r with
            | some j2 => simp [resultOf, hws]
            | none => exact absurd hws (hnone w hw)
          | scanning i => rw [hws] at hf; simp [isFinished] at hf
          | claiming i => rw [hws] at hf; simp [isFinished] at hf
        have hlen : (raceResults W (raceRun n W sched raceInit)).length = W :=
          filterMapRange_length _ W hsome
        have hnd : (raceResults W (raceRun n W sched raceInit)).Nodup :=
          filterMapRange_nodup _ W hinjres
        have hsub : (raceResults W (raceRun n W sched raceInit)).toFinset ⊆ Finset.range n := by
          intro x hx
          rw [List.mem_toFinset] at hx
          rw [Finset.mem_range]
          obtain ⟨w, hwW, hws⟩ := (mem_raceResults W _ x).mp hx
          exact (hinv.claimedDone w hwW x hws).1
        have hcard : (Finset.range n).card
            ≤ (raceResults W (raceRun n W sched raceInit)).toFinset.card := by
          rw [List.toFinset_card_of_nodup hnd, hlen, Finset.card_range]
          exact hnW
        have heq := Finset.eq_of_subset_of_card_le hsub hcard
        have hjmem : j ∈ (raceResults W (raceRun n W sched raceInit)).toFinset := by
          rw [heq]
          exact Finset.mem_range.mpr hjn
        exact List.mem_toFinset.mp hjmem
  · intro n W c w
    unfold raceStep
    by_cases hw : w < W
    · simp only [if_pos hw]
      cases hws : c.worker w with
      | finished r => exact Or.inl (by trivial)
      | scanning i =>
        by_cases hin : i < n
        · simp only [if_pos hin]
          cases hst : c.status i with
          | pending => exact Or.inl (by trivial)
          | inProgress t => exact Or.inl (by trivial)
        · simp only [if_neg hin]
          exact Or.inl (by trivial)
      | claiming i =>
        by_cases hin : i < n
        · simp only [if_pos hin]
          cases hst : c.status i with
          | pending => exact Or.inr ⟨i, hin, hst, rfl, claimJob_worker_self c w i⟩
          | inProgress t => exact Or.inl (by trivial)
        · simp only [if_neg hin]
          exact Or.inl (by trivial)
    · simp only [if_neg hw]
      exact Or.inl (by trivial)

theorem C2_reservation_race_free_witness :
    (2 : Nat) ≤ 2
    ∧ (∀ w, w < 2 → isFinished ((raceRun 2 2 [0, 1, 0, 1, 1, 1] raceInit).worker w) = true)
    ∧ ((raceResults 2 (raceRun 2 2 [0, 1, 0, 1, 1, 1] raceInit)).Nodup
      ∧ (∀ j, j ∈ raceResults 2 (raceRun 2 2 [0, 1, 0, 1, 1, 1] raceInit) → j < 2)
      ∧ (∀ j, j < 2 → j ∈ raceResults 2 (raceRun 2 2 [0, 1, 0, 1, 1, 1] raceInit))) := by
  refine ⟨by omega, by decide, ?_⟩
  exact C2_reservation_race_free.1 2 2 [0, 1, 0, 1, 1, 1] (by omega) (by decide)
